import Mathlib

/-!
# Verification of the Jarvis autonomous-agent modules

Shallow embedding of the Python modules `cache.py`, `utils.py`,
`permissions.py`, `memory.py`, `goals.py`, `agent.py` and `jarvis.py`
of the Jarvis repository, together with proofs about the embedded
operations.  Python dictionaries are modelled as insertion-ordered
association lists, wall-clock timestamps as natural numbers supplied by
the caller, exceptions as `Except`/`Option`, and module-level constants
from `constants.py` as Lean definitions (or, where a claim quantifies
over both values of a flag, as explicit parameters).
-/

namespace Jarvis

/-! ## constants.py -/

/-- `constants.CACHE_ENABLED` -/
def CACHE_ENABLED : Bool := true

/-- `constants.SAFETY_MODE` -/
def SAFETY_MODE : Bool := true

/-- `constants.BLOCK_DANGEROUS_CODE` -/
def BLOCK_DANGEROUS_CODE : Bool := true

/-- `constants.STATUS_ACTIVE` -/
def STATUS_ACTIVE : String := "active"

/-- `constants.STATUS_COMPLETED` -/
def STATUS_COMPLETED : String := "completed"

/-- `constants.STATUS_BLOCKED` -/
def STATUS_BLOCKED : String := "blocked"

/-- `constants.STATUS_FAILED` -/
def STATUS_FAILED : String := "failed"

/-! ## cache.py: `CacheManager`

A cache entry carries the four fields stored by `CacheManager.set`:
`value`, `created_at`, `expires_at`, `hits`.  The backing `Dict[str, ...]`
is an insertion-ordered association list with unique keys, exactly the
semantics of a Python `dict`. -/

structure CacheEntry where
  value : String
  created_at : Nat
  expires_at : Nat
  hits : Nat
deriving DecidableEq, Repr

/-- The backing store `self.cache : Dict[str, Dict[str, Any]]`. -/
abbrev CacheDict := List (String × CacheEntry)

/-- `key in self.cache` for a Python dict. -/
def containsKey (d : CacheDict) (k : String) : Bool :=
  d.any (fun p => p.1 = k)

/-- `self.cache[key] = entry`: Python dict assignment.  An existing key is
overwritten in place (keeping its position); a new key is appended. -/
def dictSet (d : CacheDict) (k : String) (v : CacheEntry) : CacheDict :=
  if containsKey d k then
    d.map (fun p => if p.1 = k then (k, v) else p)
  else
    d ++ [(k, v)]

/-- `del self.cache[key]`: removes the (unique) entry with the given key. -/
def dictDel (d : CacheDict) (k : String) : CacheDict :=
  d.filter (fun p => decide (p.1 ≠ k))

/-- `min(self.cache.keys(), key=lambda k: self.cache[k]["created_at"])`:
the first entry (in insertion order) with the smallest `created_at`,
`none` when the dict is empty (Python `min` raises `ValueError` there). -/
def oldestEntry : CacheDict → Option (String × CacheEntry)
  | [] => none
  | p :: rest =>
    match oldestEntry rest with
    | none => some p
    | some q => if q.2.created_at < p.2.created_at then some q else some p

structure CacheManager where
  cache : CacheDict
  max_size : Nat
  ttl_seconds : Nat
deriving Repr, DecidableEq

/-- `CacheManager._evict_oldest`: `none` models the `ValueError` that
Python's `min` raises on an empty dict. -/
def CacheManager.evictOldest (m : CacheManager) : Option CacheManager :=
  match oldestEntry m.cache with
  | none => none
  | some p => some { m with cache := dictDel m.cache p.1 }

/-- `ttl or self.ttl_seconds` (Python `or`: `None` and `0` both fall back). -/
def ttlOrDefault (ttl : Option Nat) (default : Nat) : Nat :=
  match ttl with
  | none => default
  | some t => if t = 0 then default else t

/-- `CacheManager.set(key, value, ttl)` at wall-clock time `now`
(`datetime.now()`); `none` models an uncaught exception. -/
def CacheManager.set (m : CacheManager) (k : String) (v : String)
    (ttl : Option Nat) (now : Nat) : Option CacheManager :=
  if !CACHE_ENABLED then some m
  else
    let step : Option CacheManager :=
      if m.max_size ≤ m.cache.length then m.evictOldest else some m
    step.map fun m1 =>
      { m1 with cache :=
          dictSet m1.cache k ⟨v, now, now + ttlOrDefault ttl m.ttl_seconds, 0⟩ }

/-- One recorded `set` call: key, value, ttl argument and the wall-clock
time at which the call happens. -/
structure SetOp where
  key : String
  value : String
  ttl : Option Nat
  now : Nat

/-- A sequence of `set` calls, aborted at the first uncaught exception. -/
def setMany (m : CacheManager) : List SetOp → Option CacheManager
  | [] => some m
  | op :: ops => (m.set op.key op.value op.ttl op.now).bind (fun m1 => setMany m1 ops)

/-! ### Concrete cache fixtures used in witnesses -/

def cacheW0 : CacheManager := ⟨[], 2, 3600⟩

def cacheOpsW : List SetOp :=
  [⟨"a", "1", none, 0⟩, ⟨"b", "2", none, 1⟩, ⟨"c", "3", none, 2⟩]

def cacheW3 : CacheManager :=
  ⟨[("b", ⟨"2", 1, 3601, 0⟩), ("c", ⟨"3", 2, 3602, 0⟩)], 2, 3600⟩

def cacheW4 : CacheManager :=
  ⟨[("c", ⟨"3", 2, 3602, 0⟩), ("d", ⟨"4", 5, 3605, 0⟩)], 2, 3600⟩

def cacheFull2 : CacheManager :=
  ⟨[("a", ⟨"1", 0, 3600, 0⟩), ("b", ⟨"2", 1, 3601, 0⟩)], 2, 3600⟩

def cacheFull2SetB : CacheManager :=
  ⟨[("b", ⟨"9", 7, 107, 0⟩)], 2, 3600⟩

/-! ## utils.py: `retry`

The decorator

```
for attempt in range(max_attempts):
    try:
        return func(*args, **kwargs)
    except Exception as e:
        if attempt == max_attempts - 1:
            raise
        wait_time = delay * (2 ** attempt)
        time.sleep(wait_time)
```

is modelled as a function of the per-attempt outcomes `f attempt`
(0-indexed).  The result pairs the final outcome with the ordered list of
`time.sleep` durations; `(none, _)` models the loop body never running
(`max_attempts = 0`, where the Python wrapper returns `None`), and a
`some (.error e)` outcome models the final re-`raise`. -/

/-- Remaining-iteration recursion for `retry`: `remaining` counts the
attempts still available including the current one, so
`remaining = max_attempts - attempt`; `attempt = max_attempts - 1` exactly
when `remaining = 1`. -/
def retryFrom {E A : Type} (f : Nat → Except E A) (delay : ℚ) :
    Nat → Nat → Option (Except E A) × List ℚ
  | 0, _ => (none, [])
  | remaining + 1, attempt =>
    match f attempt with
    | .ok a => (some (.ok a), [])
    | .error e =>
      if remaining = 0 then (some (.error e), [])
      else
        let r := retryFrom f delay remaining (attempt + 1)
        (r.1, delay * 2 ^ attempt :: r.2)

/-- `utils.retry(max_attempts, delay)` wrapping an operation whose
`attempt`-th invocation yields `f attempt`. -/
def retryRun {E A : Type} (f : Nat → Except E A) (delay : ℚ)
    (maxAttempts : Nat) : Option (Except E A) × List ℚ :=
  retryFrom f delay maxAttempts 0

/-! ## agent.py: `decide_action`

`decide_action` is decorated `@retry(max_attempts=3, delay=1.0)` and
`@measure_time`, queries the oracle and normalizes the parsed JSON reply.
The oracle (`api_client.create_completion` together with the
`response.choices[0].message.content` projection) is a parameter:
`oracle attempt` is the outcome of the call on the given 0-indexed
attempt, `.error` modelling a raised exception carrying `str(e)`.
`json.loads` is modelled by `parseJson` below over a minimal JSON
grammar (objects, arrays, strings without escape sequences, integer and
decimal numbers, booleans, null); logging and metrics side effects are
not modelled, and the message text of the `AttributeError` raised by
`result.setdefault` on a non-dict JSON value is abbreviated. -/

inductive Json where
  | null
  | bool (b : Bool)
  | num (q : ℚ)
  | str (s : String)
  | arr (items : List Json)
  | obj (fields : List (String × Json))

/-- Opening brace character. -/
def lbrace : Char := Char.ofNat 123

/-- Closing brace character. -/
def rbrace : Char := Char.ofNat 125

def isJsonWs (c : Char) : Bool :=
  c = ' ' || c = '\t' || c = '\n' || c = '\r'

def skipWs (cs : List Char) : List Char := cs.dropWhile isJsonWs

def isDigitCh (c : Char) : Bool := '0' ≤ c && c ≤ '9'

/-- Body of a JSON string after the opening quote: the raw characters and
the remainder after the closing quote (escape sequences unsupported). -/
def jsonStringBody : List Char → Option (List Char × List Char)
  | [] => none
  | c :: cs =>
    if c = '"' then some ([], cs)
    else if c = '\\' then none
    else
      match jsonStringBody cs with
      | none => none
      | some (s, rest) => some (c :: s, rest)

def digitsToNat (ds : List Char) : Nat :=
  ds.foldl (fun n c => n * 10 + (c.toNat - 48)) 0

/-- A JSON number (integer or decimal) without sign. -/
def parseNumAux (cs : List Char) : Option (ℚ × List Char) :=
  let ds := cs.takeWhile isDigitCh
  let rest := cs.dropWhile isDigitCh
  if ds = [] then none
  else
    match rest with
    | '.' :: rest2 =>
      let fs := rest2.takeWhile isDigitCh
      let rest3 := rest2.dropWhile isDigitCh
      if fs = [] then none
      else some ((digitsToNat ds : ℚ) + (digitsToNat fs : ℚ) / (10 : ℚ) ^ fs.length, rest3)
    | _ => some ((digitsToNat ds : ℚ), rest)

/-- Parser modes: a single value, the items of an array after `[`, or the
fields of an object after the opening brace. -/
inductive PMode where
  | val
  | arrItems
  | objFields

/-- Fuel-indexed recursive-descent JSON parser.  In `arrItems` mode the
result is the `.arr` of the parsed items; in `objFields` mode the `.obj`
of the parsed fields. -/
def jsonParse : Nat → PMode → List Char → Option (Json × List Char)
  | 0, _, _ => none
  | fuel + 1, .val, cs =>
    match skipWs cs with
    | [] => none
    | c :: rest =>
      if c = 'n' then
        match rest with
        | 'u' :: 'l' :: 'l' :: r => some (.null, r)
        | _ => none
      else if c = 't' then
        match rest with
        | 'r' :: 'u' :: 'e' :: r => some (.bool true, r)
        | _ => none
      else if c = 'f' then
        match rest with
        | 'a' :: 'l' :: 's' :: 'e' :: r => some (.bool false, r)
        | _ => none
      else if c = '"' then
        match jsonStringBody rest with
        | some (s, r) => some (.str (String.mk s), r)
        | none => none
      else if c = '-' then
        match parseNumAux rest with
        | some (q, r) => some (.num (-q), r)
        | none => none
      else if isDigitCh c then
        match parseNumAux (c :: rest) with
        | some (q, r) => some (.num q, r)
        | none => none
      else if c = '[' then
        match skipWs rest with
        | ']' :: r => some (.arr [], r)
        | _ => jsonParse fuel .arrItems rest
      else if c = lbrace then
        match skipWs rest with
        | c2 :: r => if c2 = rbrace then some (.obj [], r) else jsonParse fuel .objFields rest
        | [] => none
      else none
  | fuel + 1, .arrItems, cs =>
    match jsonParse fuel .val cs with
    | none => none
    | some (x, r) =>
      match skipWs r with
      | ',' :: r2 =>
        match jsonParse fuel .arrItems r2 with
        | some (.arr xs, r3) => some (.arr (x :: xs), r3)
        | _ => none
      | ']' :: r2 => some (.arr [x], r2)
      | _ => none
  | fuel + 1, .objFields, cs =>
    match skipWs cs with
    | '"' :: r =>
      match jsonStringBody r with
      | none => none
      | some (kcs, r2) =>
        match skipWs r2 with
        | ':' :: r3 =>
          match jsonParse fuel .val r3 with
          | none => none
          | some (v, r4) =>
            match skipWs r4 with
            | ',' :: r5 =>
              match jsonParse fuel .objFields r5 with
              | some (.obj fs, r6) => some (.obj ((String.mk kcs, v) :: fs), r6)
              | _ => none
            | c :: r5 => if c = rbrace then some (.obj [(String.mk kcs, v)], r5) else none
            | [] => none
        | _ => none
    | _ => none

/-- `json.loads(text)` (model): parse one value and require only
whitespace after it. -/
def parseJson (text : String) : Option Json :=
  match jsonParse (text.length + 1) .val text.toList with
  | some (j, rest) => if skipWs rest = [] then some j else none
  | none => none

/-- A Python dict holding a decision, in insertion order. -/
abbrev JDict := List (String × Json)

def hasKey (d : JDict) (k : String) : Bool := d.any (fun p => p.1 = k)

def dlookup (d : JDict) (k : String) : Option Json :=
  (d.find? (fun p => p.1 = k)).map (fun p => p.2)

/-- `result.setdefault(k, v)`: inserts at the end only when absent. -/
def setdefault (d : JDict) (k : String) (v : Json) : JDict :=
  if hasKey d k then d else d ++ [(k, v)]

/-- The error-shaped decision dict built in both `except` branches of
`decide_action` (with differing `analysis` text). -/
def errorDecision (analysis : String) : JDict :=
  [("analysis", .str analysis), ("action_type", .str "error"),
   ("actions", .arr []), ("goals_update", .arr []), ("confidence", .num 0)]

/-- The four `result.setdefault(...)` calls of `decide_action`, in source
order (note: `analysis` is not among them). -/
def normalizeDecision (fields : JDict) : JDict :=
  setdefault
    (setdefault
      (setdefault
        (setdefault fields "confidence" (.num (1/2)))
        "action_type" (.str "unknown"))
      "actions" (.arr []))
    "goals_update" (.arr [])

/-- One invocation of the body of `decide_action` (everything inside the
decorators), as a function of the oracle-call outcome. -/
def decideActionBody (outcome : Except String String) : JDict :=
  match outcome with
  | .error e => errorDecision e
  | .ok text =>
    match parseJson text with
    | none => errorDecision "Error parsing response"
    | some (.obj fields) => normalizeDecision fields
    | some _ => errorDecision "AttributeError: setdefault"

/-- `decide_action` as seen by callers: the body wrapped in
`@retry(max_attempts=3, delay=1.0)`.  The body never raises (it catches
every exception internally), so the wrapped call is a single `.ok`. -/
def decideAction (oracle : Nat → Except String String) :
    Option (Except String JDict) × List ℚ :=
  retryRun (fun attempt => Except.ok (decideActionBody (oracle attempt))) 1 3

/-! ## permissions.py: `PermissionManager.check_code_safety`

The nine regexes of `DANGEROUS_PATTERNS` are compiled to explicit
matchers over the lower-cased character list (the patterns contain only
lower-case letters, so `re.IGNORECASE` search is equivalent to matching
the literal pattern against the lower-cased text).  `SAFETY_MODE` and
`BLOCK_DANGEROUS_CODE` are passed as parameters because the claim
quantifies over both settings of the flags; `constants.py` sets both to
`true`. -/

/-- Python's `\s` (ASCII part). -/
def isPyWs (c : Char) : Bool :=
  c = ' ' || c = '\t' || c = '\n' || c = '\r' || c = '\x0b' || c = '\x0c'

/-- After zero or more whitespace characters, `pat` occurs. -/
def wsStarThen (pat : List Char) : List Char → Bool
  | [] => pat.isPrefixOf []
  | c :: cs => pat.isPrefixOf (c :: cs) || (isPyWs c && wsStarThen pat cs)

/-- One or more whitespace characters, then `pat` (the `\s+pat` regex at
a fixed position). -/
def wsPlusThen (pat : List Char) : List Char → Bool
  | [] => false
  | c :: cs => isPyWs c && wsStarThen pat cs

/-- The nine entries of `PermissionManager.DANGEROUS_PATTERNS`, in
source order. -/
inductive DPattern where
  | dunderImport
  | evalCall
  | execCall
  | compileCall
  | osSystem
  | subprocessCall
  | openQuote
  | rmRf
  | delKw
deriving DecidableEq, Repr

/-- The raw regex text of each pattern (used in the warning message). -/
def DPattern.src : DPattern → String
  | .dunderImport => "__import__"
  | .evalCall => "eval\\("
  | .execCall => "exec\\("
  | .compileCall => "compile\\("
  | .osSystem => "os\\.system"
  | .subprocessCall => "subprocess\\.call"
  | .openQuote => "open\\([\"\\\x27]"
  | .rmRf => "rm\\s+-rf"
  | .delKw => "del\\s+"

/-- Whether the pattern matches at the start of the (lower-cased)
character list. -/
def matchAt : DPattern → List Char → Bool
  | .dunderImport, cs => "__import__".toList.isPrefixOf cs
  | .evalCall, cs => "eval(".toList.isPrefixOf cs
  | .execCall, cs => "exec(".toList.isPrefixOf cs
  | .compileCall, cs => "compile(".toList.isPrefixOf cs
  | .osSystem, cs => "os.system".toList.isPrefixOf cs
  | .subprocessCall, cs => "subprocess.call".toList.isPrefixOf cs
  | .openQuote, cs =>
    "open(".toList.isPrefixOf cs &&
      (match cs.drop 5 with
       | c :: _ => c = '"' || c = Char.ofNat 39
       | [] => false)
  | .rmRf, cs => "rm".toList.isPrefixOf cs && wsPlusThen "-rf".toList (cs.drop 2)
  | .delKw, cs => "del".toList.isPrefixOf cs && wsPlusThen [] (cs.drop 3)

/-- `re.search`: the matcher fires at some position. -/
def searchCs (p : List Char → Bool) : List Char → Bool
  | [] => p []
  | c :: cs => p (c :: cs) || searchCs p cs

/-- `re.search(pattern, code, re.IGNORECASE)` is truthy. -/
def DPattern.matchesIn (pat : DPattern) (code : String) : Bool :=
  searchCs (matchAt pat) (code.toList.map Char.toLower)

def DANGEROUS_PATTERNS : List DPattern :=
  [.dunderImport, .evalCall, .execCall, .compileCall, .osSystem,
   .subprocessCall, .openQuote, .rmRf, .delKw]

/-- The mutable counters and warning log of `PermissionManager`. -/
structure PermissionManager where
  blocked_count : Nat
  allowed_count : Nat
  warnings : List String
deriving Repr, DecidableEq

/-- `PermissionManager.check_code_safety(code)` under the given settings
of `SAFETY_MODE` and `BLOCK_DANGEROUS_CODE`: the new manager state and
the returned boolean. -/
def check_code_safety (safetyMode blockDangerous : Bool)
    (st : PermissionManager) (code : String) : PermissionManager × Bool :=
  if !safetyMode then (st, true)
  else
    match DANGEROUS_PATTERNS.find? (fun p => p.matchesIn code) with
    | some p =>
      ({ st with
          warnings := st.warnings ++ ["Dangerous pattern detected: " ++ p.src],
          blocked_count := st.blocked_count + 1 },
       !blockDangerous)
    | none => ({ st with allowed_count := st.allowed_count + 1 }, true)

/-! ## memory.py: `MemoryManager`

Events live in the append-ordered list `self.memory`; the sqlite mirror,
the JSON persistence and the `stats` counters are not modelled (no claim
touches them).  Wall-clock timestamps are naturals supplied by the
caller. -/

/-- `utils.truncate(text, length)`. -/
def truncate (text : String) (length : Nat) : String :=
  if text.length > length then (text.take length) ++ "..." else text

structure MemEvent where
  type : String
  content : String
  timestamp : Nat
  metadata : List (String × String)
deriving Repr, DecidableEq

/-- `MemoryManager.add(event_type, content, metadata)` at time `now`. -/
def memAdd (mem : List MemEvent) (event_type : String) (content : String)
    (metadata : List (String × String)) (now : Nat) : List MemEvent :=
  mem ++ [⟨event_type, truncate content 1000, now, metadata⟩]

/-- Python `l[start:]` slicing with a possibly-negative start index. -/
def pySliceFrom {α : Type} (l : List α) (start : Int) : List α :=
  if start < 0 then l.drop (max 0 ((l.length : Int) + start)).toNat
  else l.drop start.toNat

/-- `MemoryManager.get_recent(count)`: `[m["content"] for m in
self.memory[-count:]]`. -/
def get_recent (mem : List MemEvent) (count : Int) : List String :=
  (pySliceFrom mem (-count)).map (fun m => m.content)

/-! ## goals.py: `GoalManager`

The JSON persistence is not modelled; timestamps are naturals supplied
by the caller. -/

structure Goal where
  id : String
  text : String
  priority : Nat
  status : String
  created : Nat
  completed : Option Nat
  attempts : Nat
deriving Repr, DecidableEq

structure GoalStats where
  created : Nat
  completed : Nat
  failed : Nat
deriving Repr, DecidableEq

structure GoalManager where
  goals : List Goal
  stats : GoalStats
deriving Repr, DecidableEq

/-- The `for goal in self.goals: if goal["id"] == goal_id: ...; break`
pattern: update the first goal with the given id (if any), and report
whether one was found. -/
def updateFirstGoal (gid : String) (f : Goal → Goal) :
    List Goal → List Goal × Bool
  | [] => ([], false)
  | g :: gs =>
    if g.id = gid then (f g :: gs, true)
    else
      let r := updateFirstGoal gid f gs
      (g :: r.1, r.2)

/-- `GoalManager.complete(goal_id)` at time `now`. -/
def GoalManager.complete (m : GoalManager) (gid : String) (now : Nat) :
    GoalManager :=
  let r := updateFirstGoal gid
    (fun g => { g with status := STATUS_COMPLETED, completed := some now })
    m.goals
  { goals := r.1,
    stats := if r.2 then { m.stats with completed := m.stats.completed + 1 }
             else m.stats }

/-- `GoalManager.fail(goal_id)`. -/
def GoalManager.fail (m : GoalManager) (gid : String) : GoalManager :=
  let r := updateFirstGoal gid
    (fun g => { g with status := STATUS_FAILED, attempts := g.attempts + 1 })
    m.goals
  { goals := r.1,
    stats := if r.2 then { m.stats with failed := m.stats.failed + 1 }
             else m.stats }

/-- `GoalManager.block(goal_id)`. -/
def GoalManager.block (m : GoalManager) (gid : String) : GoalManager :=
  let r := updateFirstGoal gid
    (fun g => { g with status := STATUS_BLOCKED })
    m.goals
  { goals := r.1, stats := m.stats }

/-! ## jarvis.py: `Jarvis.run`

The loop-relevant state: the memory event log, the sequence of events
published on the bus, and `self.iteration_count`.  The body of an
iteration (`self._execute_iteration`, which re-raises any exception
escaping the per-action isolation) is a parameter `body`, given the
0-indexed loop variable and the current state; `clock i` is the
wall-clock time at which iteration `i`'s error (if any) is recorded.
Logging and the report file write are not modelled; the report's
`goals`/`coder`/`executor` statistics sub-dicts are not modelled. -/

/-- `event_system.EventType`. -/
inductive EventType where
  | CODE_GENERATED
  | CODE_REFACTORED
  | GOAL_COMPLETED
  | GOAL_FAILED
  | REFLECTION_DONE
  | RESEARCH_DONE
  | ERROR_OCCURRED
  | ITERATION_STARTED
  | ITERATION_COMPLETED
deriving DecidableEq, Repr

structure JarvisState where
  memory : List MemEvent
  published : List (EventType × Option String)
  iteration_count : Nat
deriving Repr, DecidableEq

/-- One pass of the `for i in range(iterations)` body with its
`try`/`except`: set `iteration_count = i + 1`, run the body; on an
exception `e`, record an `"error"` memory event and publish
`ERROR_OCCURRED` with the error string, then fall through to the next
iteration. -/
def runStep (body : Nat → JarvisState → Except String JarvisState)
    (clock : Nat → Nat) (st : JarvisState) (i : Nat) : JarvisState :=
  match body i { st with iteration_count := i + 1 } with
  | .ok st2 => st2
  | .error e =>
    { st with
        iteration_count := i + 1,
        memory := memAdd st.memory "error" ("Iteration failed: " ++ e) [] (clock i),
        published := st.published ++ [(EventType.ERROR_OCCURRED, some e)] }

/-- The part of `Jarvis._generate_report` that the claims reference. -/
structure RunReport where
  total_iterations : Nat
  memory_total_events : Nat
deriving Repr, DecidableEq

def generateReport (st : JarvisState) : RunReport :=
  ⟨st.iteration_count, st.memory.length⟩

/-- `Jarvis.run(iterations)`: publish `ITERATION_STARTED`, run all
iterations under the loop-level `try`/`except`, generate the final
report, publish `ITERATION_COMPLETED`. -/
def run (body : Nat → JarvisState → Except String JarvisState)
    (clock : Nat → Nat) (iterations : Nat) (st0 : JarvisState) :
    JarvisState × RunReport :=
  let st1 := { st0 with
    published := st0.published ++ [(EventType.ITERATION_STARTED, none)] }
  let st2 := (List.range iterations).foldl (runStep body clock) st1
  let report := generateReport st2
  ({ st2 with
      published := st2.published ++ [(EventType.ITERATION_COMPLETED, none)] },
   report)

/-- Concrete 3-iteration body for the C1 scenario: iteration 2 (index 1)
raises during handler dispatch; the others record a decision event. -/
def bodyW : Nat → JarvisState → Except String JarvisState :=
  fun i st =>
    if i = 1 then .error "boom"
    else .ok { st with memory := memAdd st.memory "decision" "ok" [] i }

def stateW0 : JarvisState := ⟨[], [], 0⟩

/-! ### Concrete fixtures for witnesses and counterexamples -/

def pmW : PermissionManager := ⟨0, 0, []⟩

/-- The end-to-end example code from the claim. -/
def codeW : String := "os.system(\x27rm -rf /\x27)"

def memW : List MemEvent := [⟨"a", "c1", 0, []⟩, ⟨"b", "c2", 1, []⟩]

def goalBlocked : Goal := ⟨"g1", "t", 5, STATUS_BLOCKED, 0, none, 0⟩

def mgrBlocked : GoalManager := ⟨[goalBlocked], ⟨1, 0, 0⟩⟩

def goalA : Goal := ⟨"a", "first", 5, STATUS_ACTIVE, 0, none, 0⟩

def goalB : Goal := ⟨"b", "second", 5, STATUS_FAILED, 0, none, 2⟩

def mgrTwo : GoalManager := ⟨[goalA, goalB], ⟨2, 0, 1⟩⟩

/-- The state just before loop index 1 in the concrete C1 run. -/
def stM : JarvisState :=
  ⟨[⟨"decision", "ok", 0, []⟩], [(EventType.ITERATION_STARTED, none)], 1⟩

/-! ### Association-list lemmas for the cache -/

theorem dictSet_length_le (d : CacheDict) (k : String) (v : CacheEntry) :
    (dictSet d k v).length ≤ d.length + 1 := by
  unfold dictSet
  split
  · simp
  · simp

theorem oldestEntry_isSome {d : CacheDict} (h : d ≠ []) :
    (oldestEntry d).isSome := by
  cases d with
  | nil => exact absurd rfl h
  | cons p rest =>
    simp only [oldestEntry]
    cases oldestEntry rest with
    | none => rfl
    | some q => by_cases hc : q.2.created_at < p.2.created_at <;> simp [hc]

theorem oldestEntry_eq_none {d : CacheDict} (h : oldestEntry d = none) :
    d = [] := by
  cases d with
  | nil => rfl
  | cons p rest =>
    have hs := oldestEntry_isSome (d := p :: rest) (by simp)
    rw [h] at hs
    simp at hs

theorem oldestEntry_mem : ∀ {d : CacheDict} {p : String × CacheEntry},
    oldestEntry d = some p → p ∈ d := by
  intro d
  induction d with
  | nil => intro p h; simp [oldestEntry] at h
  | cons q rest ih =>
    intro p h
    simp only [oldestEntry] at h
    cases hr : oldestEntry rest with
    | none =>
      rw [hr] at h
      simp at h
      simp [h]
    | some r =>
      rw [hr] at h
      by_cases hc : r.2.created_at < q.2.created_at
      · simp [hc] at h
        subst h
        exact List.mem_cons_of_mem _ (ih hr)
      · simp [hc] at h
        simp [h]

theorem oldestEntry_min : ∀ {d : CacheDict} {p : String × CacheEntry},
    oldestEntry d = some p →
    ∀ q ∈ d, p.2.created_at ≤ q.2.created_at := by
  intro d
  induction d with
  | nil => intro p h; simp [oldestEntry] at h
  | cons a rest ih =>
    intro p h q hq
    simp only [oldestEntry] at h
    cases hr : oldestEntry rest with
    | none =>
      rw [hr] at h
      simp at h
      subst h
      rcases List.mem_cons.1 hq with hq1 | hq2
      · subst hq1; exact le_refl _
      · rw [oldestEntry_eq_none hr] at hq2; simp at hq2
    | some r =>
      rw [hr] at h
      by_cases hc : r.2.created_at < a.2.created_at
      · simp [hc] at h
        subst h
        rcases List.mem_cons.1 hq with hq1 | hq2
        · rw [hq1]; exact le_of_lt hc
        · exact ih hr q hq2
      · simp [hc] at h
        subst h
        rcases List.mem_cons.1 hq with hq1 | hq2
        · rw [hq1]
        · exact le_trans (not_lt.1 hc) (ih hr q hq2)

theorem dictDel_length_lt {d : CacheDict} {k : String}
    (h : containsKey d k = true) : (dictDel d k).length < d.length := by
  induction d with
  | nil => simp [containsKey] at h
  | cons p rest ih =>
    by_cases hp : p.1 = k
    · have hd : dictDel (p :: rest) k = dictDel rest k := by
        simp [dictDel, List.filter_cons, hp]
      rw [hd]
      calc (dictDel rest k).length
          ≤ rest.length := List.length_filter_le _ _
        _ < (p :: rest).length := by simp
    · have hd : dictDel (p :: rest) k = p :: dictDel rest k := by
        simp [dictDel, List.filter_cons, hp]
      have hrest : containsKey rest k = true := by
        simp [containsKey] at h ⊢
        rcases h with h1 | h2
        · exact absurd h1 hp
        · exact h2
      have := ih hrest
      rw [hd]
      simp only [List.length_cons]
      omega

theorem containsKey_of_mem {d : CacheDict} {p : String × CacheEntry}
    (h : p ∈ d) : containsKey d p.1 = true := by
  simp only [containsKey, List.any_eq_true, decide_eq_true_eq]
  exact ⟨p, h, rfl⟩

theorem dictDel_not_contains (d : CacheDict) (x : String) :
    containsKey (dictDel d x) x = false := by
  apply Bool.eq_false_iff.mpr
  intro hcon
  simp only [containsKey, dictDel, List.any_eq_true, List.mem_filter,
    decide_eq_true_eq, ne_eq] at hcon
  obtain ⟨p, ⟨_, hne⟩, hx⟩ := hcon
  exact hne hx

theorem dictDel_contains_of_ne {d : CacheDict} {x y : String}
    (h : containsKey d y = true) (hne : y ≠ x) :
    containsKey (dictDel d x) y = true := by
  simp only [containsKey, List.any_eq_true, decide_eq_true_eq] at h
  obtain ⟨p, hp, hpy⟩ := h
  simp only [containsKey, dictDel, List.any_eq_true, List.mem_filter,
    decide_eq_true_eq, ne_eq]
  exact ⟨p, ⟨hp, by simp [hpy, hne]⟩, hpy⟩

theorem dictDel_eq_self {d : CacheDict} {k : String}
    (h : containsKey d k = false) : dictDel d k = d := by
  apply List.filter_eq_self.mpr
  intro p hp
  simp only [decide_eq_true_eq, ne_eq]
  intro hpk
  have hck : containsKey d k = true := by
    simp only [containsKey, List.any_eq_true, decide_eq_true_eq]
    exact ⟨p, hp, hpk⟩
  rw [h] at hck
  exact Bool.false_ne_true hck

theorem dictDel_length_nodup {d : CacheDict} {k : String}
    (hn : (d.map Prod.fst).Nodup) (h : containsKey d k = true) :
    (dictDel d k).length + 1 = d.length := by
  induction d with
  | nil => simp [containsKey] at h
  | cons p rest ih =>
    simp only [List.map_cons, List.nodup_cons, List.mem_map] at hn
    by_cases hp : p.1 = k
    · have hrest : containsKey rest k = false := by
        by_contra hcon
        simp only [Bool.not_eq_false, containsKey, List.any_eq_true,
          decide_eq_true_eq] at hcon
        obtain ⟨q, hq, hqk⟩ := hcon
        exact hn.1 ⟨q, hq, by rw [hqk, ← hp]⟩
      have hd : dictDel (p :: rest) k = dictDel rest k := by
        simp [dictDel, List.filter_cons, hp]
      rw [hd, dictDel_eq_self hrest]
      simp
    · have hd : dictDel (p :: rest) k = p :: dictDel rest k := by
        simp [dictDel, List.filter_cons, hp]
      have hrest : containsKey rest k = true := by
        simp [containsKey] at h ⊢
        rcases h with h1 | h2
        · exact absurd h1 hp
        · exact h2
      rw [hd]
      simp only [List.length_cons]
      rw [ih hn.2 hrest]

theorem containsKey_map_set (d : CacheDict) (k : String) (v : CacheEntry)
    (x : String) :
    containsKey (d.map (fun p => if p.1 = k then (k, v) else p)) x
      = containsKey d x := by
  induction d with
  | nil => rfl
  | cons p rest ih =>
    by_cases hp : p.1 = k
    · simp only [List.map_cons, if_pos hp, containsKey, List.any_cons]
      simp only [containsKey] at ih
      rw [ih, hp]
    · simp only [List.map_cons, if_neg hp, containsKey, List.any_cons]
      simp only [containsKey] at ih
      rw [ih]

theorem containsKey_dictSet_same (d : CacheDict) (k : String) (v : CacheEntry) :
    containsKey (dictSet d k v) k = true := by
  unfold dictSet
  by_cases hc : containsKey d k = true
  · rw [if_pos hc, containsKey_map_set]
    exact hc
  · rw [if_neg (by simp [hc])]
    simp [containsKey]

theorem containsKey_dictSet_other {d : CacheDict} {k x : String}
    (v : CacheEntry) (hne : x ≠ k) :
    containsKey (dictSet d k v) x = containsKey d x := by
  unfold dictSet
  by_cases hc : containsKey d k = true
  · rw [if_pos hc, containsKey_map_set]
  · rw [if_neg (by simp [hc])]
    simp [containsKey, List.any_append, Ne.symm hne]

theorem dictSet_length_of_contains {d : CacheDict} {k : String}
    (v : CacheEntry) (h : containsKey d k = true) :
    (dictSet d k v).length = d.length := by
  unfold dictSet
  rw [if_pos h, List.length_map]

/-! ### `set`: capacity invariant and eviction behaviour -/

theorem set_unfold (m : CacheManager) (k v : String) (ttl : Option Nat)
    (now : Nat) :
    m.set k v ttl now =
      (if m.max_size ≤ m.cache.length then m.evictOldest else some m).map
        (fun m1 =>
          { m1 with
            cache := dictSet m1.cache k ⟨v, now, now + ttlOrDefault ttl m.ttl_seconds, 0⟩ }) := rfl

theorem set_size_bound {m m' : CacheManager} {k v : String}
    {ttl : Option Nat} {now : Nat}
    (h0 : m.cache.length ≤ m.max_size)
    (hs : m.set k v ttl now = some m') :
    m'.cache.length ≤ m.max_size ∧ m'.max_size = m.max_size := by
  rw [set_unfold] at hs
  by_cases hfull : m.max_size ≤ m.cache.length
  · rw [if_pos hfull] at hs
    unfold CacheManager.evictOldest at hs
    cases ho : oldestEntry m.cache with
    | none => rw [ho] at hs; simp at hs
    | some p =>
      rw [ho] at hs
      have hm' := (Option.some.inj hs).symm
      have hck : containsKey m.cache p.1 = true :=
        containsKey_of_mem (oldestEntry_mem ho)
      have hdel := dictDel_length_lt hck
      have hset := dictSet_length_le (dictDel m.cache p.1) k
        ⟨v, now, now + ttlOrDefault ttl m.ttl_seconds, 0⟩
      constructor
      · rw [hm']
        dsimp only
        omega
      · rw [hm']
  · rw [if_neg hfull] at hs
    have hm' := (Option.some.inj hs).symm
    have hset := dictSet_length_le m.cache k
      ⟨v, now, now + ttlOrDefault ttl m.ttl_seconds, 0⟩
    constructor
    · rw [hm']
      dsimp only
      omega
    · rw [hm']

theorem setMany_size_bound : ∀ (ops : List SetOp) {m m' : CacheManager},
    m.cache.length ≤ m.max_size → setMany m ops = some m' →
    m'.cache.length ≤ m'.max_size := by
  intro ops
  induction ops with
  | nil =>
    intro m m' h0 hs
    simp [setMany] at hs
    rw [← hs]
    exact h0
  | cons op rest ih =>
    intro m m' h0 hs
    simp only [setMany, Option.bind_eq_some] at hs
    obtain ⟨m1, hm1, hrest⟩ := hs
    obtain ⟨hlen, hmax⟩ := set_size_bound h0 hm1
    exact ih (by rw [hmax]; exact hlen) hrest

theorem set_full_evicts_oldest {m m' : CacheManager} {k v : String}
    {ttl : Option Nat} {now : Nat}
    (hfull : m.max_size ≤ m.cache.length)
    (hs : m.set k v ttl now = some m') :
    ∃ q, oldestEntry m.cache = some q ∧ q ∈ m.cache ∧
      (∀ r ∈ m.cache, q.2.created_at ≤ r.2.created_at) ∧
      m'.cache = dictSet (dictDel m.cache q.1) k
        ⟨v, now, now + ttlOrDefault ttl m.ttl_seconds, 0⟩ := by
  rw [set_unfold] at hs
  rw [if_pos hfull] at hs
  unfold CacheManager.evictOldest at hs
  cases ho : oldestEntry m.cache with
  | none => rw [ho] at hs; simp at hs
  | some q =>
    rw [ho] at hs
    have hm' := (Option.some.inj hs).symm
    exact ⟨q, rfl, oldestEntry_mem ho, oldestEntry_min ho, by rw [hm']⟩

/-- C4: after any sequence of `set` calls the cache size never exceeds
`max_size`, and a `set` on a full cache evicts exactly one entry — the one
with minimum `created_at` — before inserting the new entry. -/
theorem cache_capacity_invariant_and_oldest_eviction :
    (∀ (m : CacheManager) (ops : List SetOp) (m' : CacheManager),
        m.cache.length ≤ m.max_size → setMany m ops = some m' →
        m'.cache.length ≤ m'.max_size) ∧
    (∀ (m : CacheManager) (k v : String) (ttl : Option Nat) (now : Nat)
        (m' : CacheManager),
        m.max_size ≤ m.cache.length → m.set k v ttl now = some m' →
        ∃ q, oldestEntry m.cache = some q ∧ q ∈ m.cache ∧
          (∀ r ∈ m.cache, q.2.created_at ≤ r.2.created_at) ∧
          m'.cache = dictSet (dictDel m.cache q.1) k
            ⟨v, now, now + ttlOrDefault ttl m.ttl_seconds, 0⟩) :=
  ⟨fun _ ops _ h0 hs => setMany_size_bound ops h0 hs,
   fun _ _ _ _ _ _ hfull hs => set_full_evicts_oldest hfull hs⟩

/-- Witness for C4 at a concrete 3-call run over a cache of capacity 2,
and at a concrete `set` on a full cache. -/
theorem cache_capacity_invariant_and_oldest_eviction_witness :
    (cacheW3.cache.length ≤ cacheW3.max_size) ∧
    (∃ q, oldestEntry cacheW3.cache = some q ∧ q ∈ cacheW3.cache ∧
      (∀ r ∈ cacheW3.cache, q.2.created_at ≤ r.2.created_at) ∧
      cacheW4.cache = dictSet (dictDel cacheW3.cache q.1) "d"
        ⟨"4", 5, 5 + ttlOrDefault none cacheW3.ttl_seconds, 0⟩) :=
  ⟨cache_capacity_invariant_and_oldest_eviction.1 cacheW0 cacheOpsW cacheW3
      (by decide) (by decide),
   cache_capacity_invariant_and_oldest_eviction.2 cacheW3 "d" "4" none 5 cacheW4
      (by decide) (by decide)⟩

/-- C10: overwriting an existing key in a full cache still evicts the
minimum-`created_at` entry first, which can be a different key, so the
call can leave the cache one entry smaller than before. -/
theorem cache_set_full_existing_key_evicts_other :
    ∀ (m : CacheManager) (k v : String) (ttl : Option Nat) (now : Nat)
      (m' : CacheManager) (q : String × CacheEntry),
      (m.cache.map Prod.fst).Nodup →
      m.max_size ≤ m.cache.length →
      containsKey m.cache k = true →
      oldestEntry m.cache = some q →
      q.1 ≠ k →
      m.set k v ttl now = some m' →
      m'.cache.length + 1 = m.cache.length ∧
      containsKey m'.cache q.1 = false ∧
      containsKey m'.cache k = true := by
  intro m k v ttl now m' q hnodup hfull hk ho hne hs
  obtain ⟨q', ho', _, _, hcache⟩ := set_full_evicts_oldest hfull hs
  rw [ho] at ho'
  obtain rfl := Option.some.inj ho'
  have hkdel : containsKey (dictDel m.cache q.1) k = true :=
    dictDel_contains_of_ne hk (fun h => hne h.symm)
  refine ⟨?_, ?_, ?_⟩
  · rw [hcache, dictSet_length_of_contains _ hkdel]
    exact dictDel_length_nodup hnodup
      (containsKey_of_mem (oldestEntry_mem ho))
  · rw [hcache, containsKey_dictSet_other _ hne]
    exact dictDel_not_contains m.cache q.1
  · rw [hcache]
    exact containsKey_dictSet_same _ _ _

/-- Witness for C10: a full 2-entry cache, `set` on the already-present
key `b` evicts the unrelated oldest key `a` and shrinks the cache to one
entry. -/
theorem cache_set_full_existing_key_evicts_other_witness :
    cacheFull2SetB.cache.length + 1 = cacheFull2.cache.length ∧
    containsKey cacheFull2SetB.cache "a" = false ∧
    containsKey cacheFull2SetB.cache "b" = true :=
  cache_set_full_existing_key_evicts_other cacheFull2 "b" "9" (some 100) 7
    cacheFull2SetB ("a", ⟨"1", 0, 3600, 0⟩) (by decide) (by decide) (by decide)
    (by decide) (by decide) (by decide)


/-! ### `retry` lemmas -/

theorem retryFrom_succ {E A : Type} (f : Nat → Except E A) (delay : ℚ)
    (rem attempt : Nat) :
    retryFrom f delay (rem + 1) attempt =
      match f attempt with
      | .ok a => (some (.ok a), [])
      | .error e =>
        if rem = 0 then (some (.error e), [])
        else ((retryFrom f delay rem (attempt + 1)).1,
              delay * 2 ^ attempt :: (retryFrom f delay rem (attempt + 1)).2) := rfl

theorem retryFrom_all_fail_then_ok {E A : Type} (f : Nat → Except E A)
    (delay : ℚ) :
    ∀ (remaining attempt j : Nat) (a : A),
      j < remaining →
      (∀ i, attempt ≤ i → i < attempt + j → ∃ e, f i = .error e) →
      f (attempt + j) = .ok a →
      retryFrom f delay remaining attempt =
        (some (.ok a), (List.range' attempt j).map (fun i => delay * 2 ^ i)) := by
  intro remaining
  induction remaining with
  | zero => intro attempt j a hj; omega
  | succ rem ih =>
    intro attempt j a hj hfail hok
    cases j with
    | zero =>
      simp only [Nat.add_zero] at hok
      simp [retryFrom_succ, hok]
    | succ j' =>
      obtain ⟨e, he⟩ := hfail attempt (le_refl _) (by omega)
      have hrem : rem ≠ 0 := by omega
      have hrec := ih (attempt + 1) j' a (by omega)
        (fun i hi1 hi2 => hfail i (by omega) (by omega))
        (by rw [show attempt + 1 + j' = attempt + (j' + 1) from by omega]
            exact hok)
      simp only [retryFrom_succ, he]
      rw [if_neg hrem, hrec, List.range'_succ]
      simp

theorem retryFrom_all_fail {E A : Type} (f : Nat → Except E A) (delay : ℚ) :
    ∀ (remaining attempt : Nat) (e : E),
      1 ≤ remaining →
      (∀ i, attempt ≤ i → i < attempt + (remaining - 1) → ∃ ei, f i = .error ei) →
      f (attempt + (remaining - 1)) = .error e →
      retryFrom f delay remaining attempt =
        (some (.error e),
         (List.range' attempt (remaining - 1)).map (fun i => delay * 2 ^ i)) := by
  intro remaining
  induction remaining with
  | zero => intro attempt e h1; omega
  | succ rem ih =>
    intro attempt e h1 hfail hlast
    by_cases hrem : rem = 0
    · subst hrem
      simp only [Nat.add_zero, Nat.sub_self] at hlast
      simp [retryFrom_succ, hlast]
    · obtain ⟨e0, he0⟩ := hfail attempt (le_refl _) (by omega)
      have hrec := ih (attempt + 1) e (by omega)
        (fun i hi1 hi2 => hfail i (by omega) (by omega))
        (by rw [show attempt + 1 + (rem - 1) = attempt + (rem + 1 - 1) from by omega]
            exact hlast)
      simp only [retryFrom_succ, he0]
      rw [if_neg hrem, hrec]
      simp only [Nat.succ_sub_one]
      rw [show rem = (rem - 1) + 1 from by omega, List.range'_succ]
      simp only [List.map_cons]
      rw [show rem - 1 + 1 - 1 = rem - 1 from by omega]

/-- C9: the retry wrapper returns immediately on success, waits
`delay * 2 ^ (k - 1)` before the retry following failed attempt `k`
(1-indexed, `k < max_attempts`), propagates the final attempt's failure
unchanged, and with `max_attempts = 3` on an operation failing twice then
succeeding it returns the success value with exactly two sleeps, the
second exactly twice the first. -/
theorem retry_backoff_spec {E A : Type} :
    (∀ (f : Nat → Except E A) (delay : ℚ) (maxAttempts : Nat) (a : A),
        1 ≤ maxAttempts → f 0 = .ok a →
        retryRun f delay maxAttempts = (some (.ok a), [])) ∧
    (∀ (f : Nat → Except E A) (delay : ℚ) (maxAttempts j : Nat) (a : A),
        j < maxAttempts →
        (∀ i, i < j → ∃ e, f i = .error e) →
        f j = .ok a →
        retryRun f delay maxAttempts =
          (some (.ok a), (List.range j).map (fun i => delay * 2 ^ i))) ∧
    (∀ (f : Nat → Except E A) (delay : ℚ) (maxAttempts : Nat) (e : E),
        1 ≤ maxAttempts →
        (∀ i, i < maxAttempts - 1 → ∃ ei, f i = .error ei) →
        f (maxAttempts - 1) = .error e →
        retryRun f delay maxAttempts =
          (some (.error e),
           (List.range (maxAttempts - 1)).map (fun i => delay * 2 ^ i))) ∧
    (∀ (f : Nat → Except E A) (delay : ℚ) (a : A) (e0 e1 : E),
        f 0 = .error e0 → f 1 = .error e1 → f 2 = .ok a →
        retryRun f delay 3 = (some (.ok a), [delay * 2 ^ 0, delay * 2 ^ 1]) ∧
        delay * 2 ^ 1 = 2 * (delay * 2 ^ 0) ∧
        2 * (delay * 2 ^ 0) ≤ delay * 2 ^ 1) := by
  refine ⟨?_, ?_, ?_, ?_⟩
  · intro f delay maxAttempts a h1 h0
    have hmain := retryFrom_all_fail_then_ok f delay maxAttempts 0 0 a h1
      (fun i _ hi2 => absurd hi2 (by omega)) (by simpa using h0)
    simpa [retryRun, List.range'] using hmain
  · intro f delay maxAttempts j a hj hfail hok
    have hmain := retryFrom_all_fail_then_ok f delay maxAttempts 0 j a hj
      (fun i _ hi2 => hfail i (by omega)) (by simpa using hok)
    simp only [retryRun]
    rw [hmain, List.range_eq_range']
  · intro f delay maxAttempts e h1 hfail hlast
    have hmain := retryFrom_all_fail f delay maxAttempts 0 e h1
      (fun i _ hi2 => hfail i (by omega)) (by simpa using hlast)
    simp only [retryRun]
    rw [hmain, List.range_eq_range']
  · intro f delay a e0 e1 h0 h1 h2
    have hmain := retryFrom_all_fail_then_ok f delay 3 0 2 a (by omega)
      (fun i _ hi2 => by
        match i with
        | 0 => exact ⟨e0, h0⟩
        | 1 => exact ⟨e1, h1⟩
        | n + 2 => omega)
      (by simpa using h2)
    refine ⟨?_, by ring, le_of_eq (by ring)⟩
    simpa [retryRun, List.range'] using hmain

/-- Witness for C9: `max_attempts = 3`, `delay = 1`, an operation failing
on attempts 1 and 2 and returning 42 on attempt 3. -/
theorem retry_backoff_spec_witness :
    retryRun (fun i => if i < 2 then Except.error "boom" else Except.ok 42)
        1 3 = (some (.ok 42), [1 * 2 ^ 0, 1 * 2 ^ 1]) ∧
    (1 : ℚ) * 2 ^ 1 = 2 * (1 * 2 ^ 0) ∧
    2 * ((1 : ℚ) * 2 ^ 0) ≤ 1 * 2 ^ 1 :=
  (retry_backoff_spec.2.2.2
    (fun i => if i < 2 then Except.error "boom" else Except.ok 42)
    1 42 "boom" "boom" rfl rfl rfl)

/-! ### Decision-dict lemmas -/

theorem hasKey_setdefault_self (d : JDict) (k : String) (v : Json) :
    hasKey (setdefault d k v) k = true := by
  unfold setdefault
  by_cases h : hasKey d k = true
  · simp [h]
  · rw [if_neg (by simp [h])]
    simp [hasKey]

theorem hasKey_setdefault_other {x k : String} (h : x ≠ k) (d : JDict)
    (v : Json) : hasKey (setdefault d k v) x = hasKey d x := by
  unfold setdefault
  split
  · rfl
  · simp [hasKey, Ne.symm h]

theorem dlookup_cons_pos {p : String × Json} {rest : JDict} {k : String}
    (h : p.1 = k) : dlookup (p :: rest) k = some p.2 := by
  unfold dlookup
  rw [List.find?_cons_of_pos _ (by simp [h])]
  rfl

theorem dlookup_cons_neg {p : String × Json} {rest : JDict} {k : String}
    (h : ¬ p.1 = k) : dlookup (p :: rest) k = dlookup rest k := by
  unfold dlookup
  rw [List.find?_cons_of_neg _ (by simp [h])]

theorem dlookup_append_left {d : JDict} {k : String} {v : Json}
    (h : dlookup d k = some v) (d2 : JDict) :
    dlookup (d ++ d2) k = some v := by
  induction d with
  | nil => simp [dlookup] at h
  | cons p rest ih =>
    by_cases hp : p.1 = k
    · rw [dlookup_cons_pos hp] at h
      rw [List.cons_append, dlookup_cons_pos hp]
      exact h
    · rw [dlookup_cons_neg hp] at h
      rw [List.cons_append, dlookup_cons_neg hp]
      exact ih h

theorem dlookup_append_right {d : JDict} {k : String}
    (h : hasKey d k = false) (d2 : JDict) :
    dlookup (d ++ d2) k = dlookup d2 k := by
  induction d with
  | nil => rfl
  | cons p rest ih =>
    simp only [hasKey, List.any_cons, Bool.or_eq_false_iff,
      decide_eq_false_iff_not] at h
    rw [List.cons_append, dlookup_cons_neg h.1]
    exact ih h.2

theorem dlookup_setdefault_absent {d : JDict} {k : String}
    (h : hasKey d k = false) (v : Json) :
    dlookup (setdefault d k v) k = some v := by
  unfold setdefault
  rw [if_neg (by simp [h]), dlookup_append_right h]
  exact dlookup_cons_pos rfl

theorem dlookup_setdefault_of_found {d : JDict} {x : String} {v0 : Json}
    (h : dlookup d x = some v0) (k : String) (v : Json) :
    dlookup (setdefault d k v) x = some v0 := by
  unfold setdefault
  split
  · exact h
  · exact dlookup_append_left h _

theorem decideAction_eval (oracle : Nat → Except String String) :
    decideAction oracle = (some (.ok (decideActionBody (oracle 0))), []) := rfl

/-- C2: evaluation of `decide_action` at an oracle that raises on the
first attempt (and would succeed on later attempts): the exception is
swallowed by the blanket `except Exception` inside the body before the
`@retry` wrapper can observe it, so the call returns the error-shaped
decision immediately, with zero sleeps and without consulting attempts
2 or 3. -/
theorem decide_action_oracle_exception_not_retried :
    decideAction (fun attempt => if attempt = 0
        then .error "ConnectionError: boom"
        else .ok "\x7b\"analysis\": \"ok\"\x7d") =
      (some (.ok (errorDecision "ConnectionError: boom")), []) := rfl

/-- C5: when the oracle response text fails to parse as JSON,
`decide_action` does not raise and returns (on the first attempt, with
no retry sleeps) the error decision whose `analysis` describes the parse
error, with `action_type="error"`, `confidence=0.0` and empty
`actions`/`goals_update`. -/
theorem decide_action_parse_failure_terminal :
    ∀ (oracle : Nat → Except String String) (t : String),
      oracle 0 = .ok t → parseJson t = none →
      decideAction oracle =
        (some (.ok (errorDecision "Error parsing response")), []) ∧
      dlookup (errorDecision "Error parsing response") "action_type"
        = some (.str "error") ∧
      dlookup (errorDecision "Error parsing response") "confidence"
        = some (.num 0) ∧
      dlookup (errorDecision "Error parsing response") "actions"
        = some (.arr []) ∧
      dlookup (errorDecision "Error parsing response") "goals_update"
        = some (.arr []) := by
  intro oracle t h0 hp
  refine ⟨?_, rfl, rfl, rfl, rfl⟩
  rw [decideAction_eval, h0]
  simp [decideActionBody, hp]

/-- Witness for C5 at the concrete non-JSON response text `not json`. -/
theorem decide_action_parse_failure_terminal_witness :
    decideAction (fun _ => Except.ok "not json") =
        (some (.ok (errorDecision "Error parsing response")), []) ∧
      dlookup (errorDecision "Error parsing response") "action_type"
        = some (.str "error") ∧
      dlookup (errorDecision "Error parsing response") "confidence"
        = some (.num 0) ∧
      dlookup (errorDecision "Error parsing response") "actions"
        = some (.arr []) ∧
      dlookup (errorDecision "Error parsing response") "goals_update"
        = some (.arr []) :=
  decide_action_parse_failure_terminal (fun _ => Except.ok "not json")
    "not json" rfl rfl

/-- C6 counterexample: an oracle reply that parses to the empty JSON
object yields a decision with no `analysis` key at all — the `analysis`
field is not among the `setdefault` calls, so it is not defaulted. -/
theorem decide_action_analysis_missing_counterexample :
    decideAction (fun _ => Except.ok "\x7b\x7d") =
      (some (.ok [("confidence", Json.num (1/2)),
                  ("action_type", Json.str "unknown"),
                  ("actions", Json.arr []),
                  ("goals_update", Json.arr [])]), []) ∧
    hasKey [("confidence", Json.num (1/2)),
            ("action_type", Json.str "unknown"),
            ("actions", Json.arr []),
            ("goals_update", Json.arr [])] "analysis" = false :=
  ⟨rfl, rfl⟩

/-- C6 (amended): every decision returned on the success path contains
the four fields `action_type`, `actions`, `goals_update`, `confidence`,
with defaults substituted when absent from the oracle's parsed object;
`analysis` is NOT defaulted — it is present exactly when the oracle's
object contained it — while both error-path decisions do contain
`analysis`. -/
theorem decide_action_normalizes_four_fields :
    ∀ (fields : JDict),
      hasKey (normalizeDecision fields) "confidence" = true ∧
      hasKey (normalizeDecision fields) "action_type" = true ∧
      hasKey (normalizeDecision fields) "actions" = true ∧
      hasKey (normalizeDecision fields) "goals_update" = true ∧
      (hasKey fields "confidence" = false →
        dlookup (normalizeDecision fields) "confidence" = some (.num (1/2))) ∧
      (hasKey fields "action_type" = false →
        dlookup (normalizeDecision fields) "action_type" = some (.str "unknown")) ∧
      (hasKey fields "actions" = false →
        dlookup (normalizeDecision fields) "actions" = some (.arr [])) ∧
      (hasKey fields "goals_update" = false →
        dlookup (normalizeDecision fields) "goals_update" = some (.arr [])) ∧
      hasKey (normalizeDecision fields) "analysis" = hasKey fields "analysis" ∧
      (∀ msg, hasKey (errorDecision msg) "analysis" = true) := by
  intro fields
  unfold normalizeDecision
  refine ⟨?_, ?_, ?_, ?_, ?_, ?_, ?_, ?_, ?_, ?_⟩
  · rw [hasKey_setdefault_other (by decide), hasKey_setdefault_other (by decide),
      hasKey_setdefault_other (by decide)]
    exact hasKey_setdefault_self _ _ _
  · rw [hasKey_setdefault_other (by decide), hasKey_setdefault_other (by decide)]
    exact hasKey_setdefault_self _ _ _
  · rw [hasKey_setdefault_other (by decide)]
    exact hasKey_setdefault_self _ _ _
  · exact hasKey_setdefault_self _ _ _
  · intro h
    exact dlookup_setdefault_of_found
      (dlookup_setdefault_of_found
        (dlookup_setdefault_of_found (dlookup_setdefault_absent h _) _ _) _ _) _ _
  · intro h
    have h1 : hasKey (setdefault fields "confidence" (.num (1/2))) "action_type" = false := by
      rw [hasKey_setdefault_other (by decide)]
      exact h
    exact dlookup_setdefault_of_found
      (dlookup_setdefault_of_found (dlookup_setdefault_absent h1 _) _ _) _ _
  · intro h
    have h1 : hasKey (setdefault (setdefault fields "confidence" (.num (1/2)))
        "action_type" (.str "unknown")) "actions" = false := by
      rw [hasKey_setdefault_other (by decide), hasKey_setdefault_other (by decide)]
      exact h
    exact dlookup_setdefault_of_found (dlookup_setdefault_absent h1 _) _ _
  · intro h
    have h1 : hasKey (setdefault (setdefault (setdefault fields "confidence"
        (.num (1/2))) "action_type" (.str "unknown")) "actions" (.arr []))
        "goals_update" = false := by
      rw [hasKey_setdefault_other (by decide), hasKey_setdefault_other (by decide),
        hasKey_setdefault_other (by decide)]
      exact h
    exact dlookup_setdefault_absent h1 _
  · rw [hasKey_setdefault_other (by decide), hasKey_setdefault_other (by decide),
      hasKey_setdefault_other (by decide), hasKey_setdefault_other (by decide)]
  · intro msg
    rfl

/-- Witness for C6's amended statement at the empty parsed object. -/
theorem decide_action_normalizes_four_fields_witness :
    hasKey (normalizeDecision []) "confidence" = true ∧
    dlookup (normalizeDecision []) "confidence" = some (.num (1/2)) ∧
    dlookup (normalizeDecision []) "action_type" = some (.str "unknown") ∧
    dlookup (normalizeDecision []) "actions" = some (.arr []) ∧
    dlookup (normalizeDecision []) "goals_update" = some (.arr []) ∧
    hasKey (normalizeDecision []) "analysis" = hasKey ([] : JDict) "analysis" :=
  ⟨(decide_action_normalizes_four_fields []).1,
   (decide_action_normalizes_four_fields []).2.2.2.2.1 rfl,
   (decide_action_normalizes_four_fields []).2.2.2.2.2.1 rfl,
   (decide_action_normalizes_four_fields []).2.2.2.2.2.2.1 rfl,
   (decide_action_normalizes_four_fields []).2.2.2.2.2.2.2.1 rfl,
   (decide_action_normalizes_four_fields []).2.2.2.2.2.2.2.2.1⟩

/-! ### permissions.py theorems -/

theorem check_code_safety_on (b : Bool) (st : PermissionManager)
    (code : String) :
    check_code_safety true b st code =
      match DANGEROUS_PATTERNS.find? (fun p => p.matchesIn code) with
      | some p =>
        ({ st with
            warnings := st.warnings ++ ["Dangerous pattern detected: " ++ p.src],
            blocked_count := st.blocked_count + 1 },
         !b)
      | none => ({ st with allowed_count := st.allowed_count + 1 }, true) := rfl

/-- C3: with safety mode off `check_code_safety` returns true and leaves
the state untouched; with safety mode on, a text matching some dangerous
pattern is charged to the blocked counter (with the first matching
pattern's warning) and yields `not block_dangerous_flag`, while a text
matching none is charged to the allowed counter and yields true. -/
theorem check_code_safety_spec :
    (∀ (st : PermissionManager) (code : String) (blockDangerous : Bool),
        check_code_safety false blockDangerous st code = (st, true)) ∧
    (∀ (st : PermissionManager) (code : String) (blockDangerous : Bool)
        (p : DPattern),
        DANGEROUS_PATTERNS.find? (fun q => q.matchesIn code) = some p →
        check_code_safety true blockDangerous st code =
          ({ st with
              warnings := st.warnings ++ ["Dangerous pattern detected: " ++ p.src],
              blocked_count := st.blocked_count + 1 },
           !blockDangerous)) ∧
    (∀ (st : PermissionManager) (code : String) (blockDangerous : Bool),
        (∀ p ∈ DANGEROUS_PATTERNS, p.matchesIn code = false) →
        check_code_safety true blockDangerous st code =
          ({ st with allowed_count := st.allowed_count + 1 }, true)) ∧
    (∀ (st : PermissionManager) (code : String) (blockDangerous : Bool),
        (∃ p ∈ DANGEROUS_PATTERNS, p.matchesIn code = true) →
        (check_code_safety true blockDangerous st code).2 = !blockDangerous ∧
        (check_code_safety true blockDangerous st code).1.blocked_count
          = st.blocked_count + 1 ∧
        (check_code_safety true blockDangerous st code).1.allowed_count
          = st.allowed_count) := by
  refine ⟨?_, ?_, ?_, ?_⟩
  · intro st code b
    rfl
  · intro st code b p hp
    rw [check_code_safety_on, hp]
  · intro st code b h
    have hnone : DANGEROUS_PATTERNS.find? (fun q => q.matchesIn code) = none :=
      List.find?_eq_none.mpr (fun p hp => by simp [h p hp])
    rw [check_code_safety_on, hnone]
  · intro st code b h
    cases hf : DANGEROUS_PATTERNS.find? (fun q => q.matchesIn code) with
    | none =>
      obtain ⟨p, hp, hm⟩ := h
      have := List.find?_eq_none.mp hf p hp
      simp [hm] at this
    | some p =>
      rw [check_code_safety_on, hf]
      exact ⟨rfl, rfl, rfl⟩

/-- Witness for C3 at the claim's end-to-end example, with both flags
on and off. -/
theorem check_code_safety_spec_witness :
    check_code_safety false true pmW codeW = (pmW, true) ∧
    check_code_safety true true pmW codeW =
      ({ pmW with
          warnings := pmW.warnings
            ++ ["Dangerous pattern detected: " ++ DPattern.osSystem.src],
          blocked_count := pmW.blocked_count + 1 },
       !true) ∧
    (check_code_safety true true pmW codeW).2 = !true ∧
    (check_code_safety true true pmW codeW).1.blocked_count
      = pmW.blocked_count + 1 :=
  ⟨check_code_safety_spec.1 pmW codeW true,
   check_code_safety_spec.2.1 pmW codeW true DPattern.osSystem rfl,
   (check_code_safety_spec.2.2.2 pmW codeW true
      ⟨DPattern.osSystem, by decide, rfl⟩).1,
   (check_code_safety_spec.2.2.2 pmW codeW true
      ⟨DPattern.osSystem, by decide, rfl⟩).2.1⟩

/-! ### memory.py theorems -/

/-- C8 counterexample: on a two-event log, `get_recent(0)` returns both
entries (Python `memory[-0:]` is `memory[0:]`), not the empty sequence
of length `min 0 2 = 0` that the claim requires. -/
theorem get_recent_zero_counterexample :
    get_recent memW 0 = ["c1", "c2"] ∧
    (get_recent memW 0).length ≠ min 0 memW.length :=
  ⟨rfl, by decide⟩

/-- C8 (amended): for every count `n ≥ 1`, `get_recent(n)` returns
exactly `min n total` entries, the tail of the append-order sequence in
chronological order; `get_recent(0)` instead returns the whole log. -/
theorem get_recent_amended :
    (∀ (mem : List MemEvent) (n : Nat), 1 ≤ n →
        get_recent mem (n : Int)
          = (mem.map (fun m => m.content)).drop (mem.length - n) ∧
        (get_recent mem (n : Int)).length = min n mem.length) ∧
    (∀ mem : List MemEvent, get_recent mem 0 = mem.map (fun m => m.content)) := by
  constructor
  · intro mem n hn
    have hneg : (-(n : Int)) < 0 := by omega
    unfold get_recent pySliceFrom
    rw [if_pos hneg]
    have hdrop : (max 0 ((mem.length : Int) + -(n : Int))).toNat
        = mem.length - n := by omega
    rw [hdrop]
    constructor
    · rw [List.map_drop]
    · rw [List.length_map, List.length_drop]
      omega
  · intro mem
    rfl

/-- Witness for C8's amended statement at `n = 1` on the two-event log. -/
theorem get_recent_amended_witness :
    get_recent memW (1 : Int)
      = (memW.map (fun m => m.content)).drop (memW.length - 1) ∧
    (get_recent memW (1 : Int)).length = min 1 memW.length :=
  get_recent_amended.1 memW 1 (by decide)

/-! ### goals.py theorems -/

theorem updateFirstGoal_not_found (gid : String) (f : Goal → Goal) :
    ∀ gs : List Goal, (∀ g ∈ gs, g.id ≠ gid) →
      updateFirstGoal gid f gs = (gs, false) := by
  intro gs
  induction gs with
  | nil => intro h; rfl
  | cons g rest ih =>
    intro h
    have hg : ¬ g.id = gid := h g (by simp)
    unfold updateFirstGoal
    rw [if_neg hg, ih (fun g' hg' => h g' (by simp [hg']))]

theorem updateFirstGoal_found (gid : String) (f : Goal → Goal) :
    ∀ (pre : List Goal) (g : Goal) (post : List Goal),
      (∀ g' ∈ pre, g'.id ≠ gid) → g.id = gid →
      updateFirstGoal gid f (pre ++ g :: post) = (pre ++ f g :: post, true) := by
  intro pre
  induction pre with
  | nil =>
    intro g post hpre hg
    simp only [List.nil_append]
    unfold updateFirstGoal
    rw [if_pos hg]
  | cons a rest ih =>
    intro g post hpre hg
    have ha : ¬ a.id = gid := hpre a (by simp)
    simp only [List.cons_append]
    unfold updateFirstGoal
    rw [if_neg ha, ih g post (fun g' h' => hpre g' (by simp [h'])) hg]

theorem complete_goals_eq (m : GoalManager) (gid : String) (now : Nat) :
    (m.complete gid now).goals =
      (updateFirstGoal gid
        (fun g => { g with status := STATUS_COMPLETED, completed := some now })
        m.goals).1 := rfl

theorem fail_goals_eq (m : GoalManager) (gid : String) :
    (m.fail gid).goals =
      (updateFirstGoal gid
        (fun g => { g with status := STATUS_FAILED, attempts := g.attempts + 1 })
        m.goals).1 := rfl

theorem block_goals_eq (m : GoalManager) (gid : String) :
    (m.block gid).goals =
      (updateFirstGoal gid
        (fun g => { g with status := STATUS_BLOCKED })
        m.goals).1 := rfl

/-- C7 counterexample: a goal whose status is already `blocked` IS moved
to `completed` by a later `complete` call — the transition methods never
inspect the current status. -/
theorem goal_status_guard_counterexample :
    (mgrBlocked.complete "g1" 10).goals.map (fun g => g.status)
      = [STATUS_COMPLETED] ∧
    mgrBlocked.goals.map (fun g => g.status) = [STATUS_BLOCKED] ∧
    STATUS_COMPLETED ≠ STATUS_BLOCKED :=
  ⟨rfl, rfl, by decide⟩

/-- C7 (amended): `complete`, `fail` and `block` update the first goal
with the matching id unconditionally — whatever its current status —
setting the new status (`fail` also increments `attempts` by 1) and
leaving all other goals unchanged; they are no-ops on the goal list when
the id is absent. -/
theorem goal_transitions_unconditional :
    ∀ (m : GoalManager) (gid : String) (now : Nat),
      ((∀ g ∈ m.goals, g.id ≠ gid) →
        (m.complete gid now).goals = m.goals ∧
        (m.fail gid).goals = m.goals ∧
        (m.block gid).goals = m.goals) ∧
      (∀ (pre : List Goal) (g : Goal) (post : List Goal),
        m.goals = pre ++ g :: post →
        (∀ g' ∈ pre, g'.id ≠ gid) →
        g.id = gid →
        (m.complete gid now).goals =
          pre ++ { g with status := STATUS_COMPLETED, completed := some now } :: post ∧
        (m.fail gid).goals =
          pre ++ { g with status := STATUS_FAILED, attempts := g.attempts + 1 } :: post ∧
        (m.block gid).goals =
          pre ++ { g with status := STATUS_BLOCKED } :: post) := by
  intro m gid now
  constructor
  · intro hno
    refine ⟨?_, ?_, ?_⟩
    · rw [complete_goals_eq, updateFirstGoal_not_found gid _ m.goals hno]
    · rw [fail_goals_eq, updateFirstGoal_not_found gid _ m.goals hno]
    · rw [block_goals_eq, updateFirstGoal_not_found gid _ m.goals hno]
  · intro pre g post hgoals hpre hg
    refine ⟨?_, ?_, ?_⟩
    · rw [complete_goals_eq, hgoals, updateFirstGoal_found gid _ pre g post hpre hg]
    · rw [fail_goals_eq, hgoals, updateFirstGoal_found gid _ pre g post hpre hg]
    · rw [block_goals_eq, hgoals, updateFirstGoal_found gid _ pre g post hpre hg]

/-- Witness for C7's amended statement: completing, failing and blocking
the already-failed goal `b` behind the active goal `a`. -/
theorem goal_transitions_unconditional_witness :
    (mgrTwo.complete "b" 10).goals =
      [goalA] ++ { goalB with status := STATUS_COMPLETED, completed := some 10 } :: [] ∧
    (mgrTwo.fail "b").goals =
      [goalA] ++ { goalB with status := STATUS_FAILED, attempts := goalB.attempts + 1 } :: [] ∧
    (mgrTwo.block "b").goals =
      [goalA] ++ { goalB with status := STATUS_BLOCKED } :: [] :=
  (goal_transitions_unconditional mgrTwo "b" 10).2 [goalA] goalB []
    rfl (by decide) rfl

/-! ### jarvis.py theorems -/

theorem runStep_count (body : Nat → JarvisState → Except String JarvisState)
    (clock : Nat → Nat)
    (hb : ∀ i st st', body i st = .ok st' →
      st'.iteration_count = st.iteration_count) :
    ∀ (st : JarvisState) (i : Nat),
      (runStep body clock st i).iteration_count = i + 1 := by
  intro st i
  unfold runStep
  cases hbody : body i { st with iteration_count := i + 1 } with
  | ok st2 => exact hb i _ st2 hbody
  | error e => rfl

theorem run_report_total (body : Nat → JarvisState → Except String JarvisState)
    (clock : Nat → Nat)
    (hb : ∀ i st st', body i st = .ok st' →
      st'.iteration_count = st.iteration_count) :
    ∀ (iterations : Nat) (st0 : JarvisState), 1 ≤ iterations →
      (run body clock iterations st0).2.total_iterations = iterations := by
  intro iterations st0 h1
  obtain ⟨m, rfl⟩ : ∃ m, iterations = m + 1 := ⟨iterations - 1, by omega⟩
  show ((List.range (m + 1)).foldl (runStep body clock)
    { st0 with
        published := st0.published
          ++ [(EventType.ITERATION_STARTED, none)] }).iteration_count = m + 1
  rw [List.range_succ, List.foldl_append]
  simp only [List.foldl_cons, List.foldl_nil]
  exact runStep_count body clock hb _ m

/-- C1: an exception raised by an iteration body is caught at the loop
level — the step records an `"error"` memory event and publishes
`ERROR_OCCURRED`, and the loop continues, so a run of `n ≥ 1` iterations
always reports `total_iterations = n`; concretely, the 3-iteration run
whose second iteration raises during handler dispatch completes all
iterations, reports `total_iterations = 3`, records the `"error"` event
for iteration 2 and publishes the error event between the start and
completion events. -/
theorem run_catches_iteration_errors :
    (∀ (body : Nat → JarvisState → Except String JarvisState)
        (clock : Nat → Nat) (st : JarvisState) (i : Nat) (e : String),
        body i { st with iteration_count := i + 1 } = .error e →
        runStep body clock st i =
          { st with
              iteration_count := i + 1,
              memory := memAdd st.memory "error" ("Iteration failed: " ++ e) []
                (clock i),
              published := st.published ++ [(EventType.ERROR_OCCURRED, some e)] }) ∧
    (∀ (body : Nat → JarvisState → Except String JarvisState)
        (clock : Nat → Nat) (iterations : Nat) (st0 : JarvisState),
        (∀ i st st', body i st = .ok st' →
          st'.iteration_count = st.iteration_count) →
        1 ≤ iterations →
        (run body clock iterations st0).2.total_iterations = iterations) ∧
    ((run bodyW (fun i => i) 3 stateW0).2.total_iterations = 3 ∧
     ((run bodyW (fun i => i) 3 stateW0).1.memory.map
        (fun m => (m.type, m.content)))
       = [("decision", "ok"), ("error", "Iteration failed: boom"),
          ("decision", "ok")] ∧
     (run bodyW (fun i => i) 3 stateW0).1.published
       = [(.ITERATION_STARTED, none), (.ERROR_OCCURRED, some "boom"),
          (.ITERATION_COMPLETED, none)]) := by
  refine ⟨?_, ?_, rfl, rfl, rfl⟩
  · intro body clock st i e hbody
    unfold runStep
    rw [hbody]
  · intro body clock iterations st0 hb h1
    exact run_report_total body clock hb iterations st0 h1

/-- Witness for C1: the failing step of the concrete run, and the
3-iteration total. -/
theorem run_catches_iteration_errors_witness :
    runStep bodyW (fun i => i) stM 1 =
      { stM with
          iteration_count := 2,
          memory := memAdd stM.memory "error" ("Iteration failed: " ++ "boom") [] 1,
          published := stM.published ++ [(EventType.ERROR_OCCURRED, some "boom")] } ∧
    (run bodyW (fun i => i) 3 stateW0).2.total_iterations = 3 :=
  ⟨run_catches_iteration_errors.1 bodyW (fun i => i) stM 1 "boom" rfl,
   run_catches_iteration_errors.2.1 bodyW (fun i => i) 3 stateW0
     (fun i st st' h => by
       unfold bodyW at h
       split at h
       · exact Except.noConfusion h
       · injection h with h2
         rw [← h2])
     (by decide)⟩
